import Mathlib

/-!
Verification of the "what-is-the-code" analysis/caching pipeline.

This file gives a shallow embedding of the TypeScript sources
(`src/utils/retry.ts`, `src/extension.ts`, `src/analyzer/codeAnalyzer.ts`,
`src/analyzer/gitAnalyzer.ts`, `src/analyzer/githubAnalyzer.ts`) and proves
properties of the embedded definitions.

Modelling conventions:
* JavaScript numbers used as integral quantities (timestamps, line numbers,
  counts) are modelled as `Int`/`Nat`; retry delays and the backoff
  multiplier, which may be fractional, are modelled as `ℚ`.
* ISO timestamp strings produced by `new Date().toISOString()` and read back
  with `new Date(s).getTime()` are modelled directly as epoch milliseconds
  (`Int`): the round trip through the string is the identity.
* A JavaScript value that may be `undefined`/`null` is an `Option`;
  JS truthiness of strings (`""` is falsy) is modelled explicitly.
* Thrown `Error` objects are modelled by their `message` string, and
  fallible asynchronous operations return `Except String`.
* The `crypto` md5 digest is modelled as an explicitly passed function
  `hashFn : String → String`; collision-freedom, where a property needs it,
  is an explicit `Function.Injective` hypothesis.
* The external collaborators (git, Claude, GitHub) are injected as oracle
  functions in `AnalyzeDeps`; the orchestrator's `await` boundaries become
  ordinary sequential composition, and the user-settable cancellation flag
  becomes the index of the first stage-boundary check that observes it set.
-/

namespace WITC

/-! ## JavaScript primitive helpers -/

/-- Lookup in a JS `Map` modelled as an insertion-ordered association list. -/
def mapGet {β : Type} (m : List (String × β)) (k : String) : Option β :=
  match m with
  | [] => none
  | (k', v) :: rest => if k' = k then some v else mapGet rest k

/-- JS `Map.set`: replaces the value in place if the key exists (keeping its
position), otherwise appends the new binding. -/
def mapSet {β : Type} (m : List (String × β)) (k : String) (v : β) : List (String × β) :=
  match m with
  | [] => [(k, v)]
  | (k', v') :: rest => if k' = k then (k, v) :: rest else (k', v') :: mapSet rest k v

/-- JS `Map.delete`: removes the binding for the key, if present. -/
def mapDelete {β : Type} (m : List (String × β)) (k : String) : List (String × β) :=
  match m with
  | [] => []
  | (k', v') :: rest => if k' = k then rest else (k', v') :: mapDelete rest k

/-- Check that `pat` occurs at the head of `l`. -/
def leadMatch : List Char → List Char → Bool
  | [], _ => true
  | _ :: _, [] => false
  | a :: as, b :: bs => a == b && leadMatch as bs

/-- Check that `pat` occurs somewhere in `l` (contiguously). -/
def occursIn (pat : List Char) : List Char → Bool
  | [] => leadMatch pat []
  | c :: cs => leadMatch pat (c :: cs) || occursIn pat cs

/-- JS `String.prototype.includes`. -/
def jsIncludes (s pat : String) : Bool :=
  occursIn pat.data s.data

/-- JS `String.prototype.toLowerCase`, modelled as a per-character map. -/
def jsLower (s : String) : String :=
  String.mk (s.data.map Char.toLower)

/-- JS `x || default` for a possibly-absent string: `undefined`, `null` and
the empty string are falsy and replaced by the default. -/
def jsOrDefault (v : Option String) (d : String) : String :=
  match v with
  | none => d
  | some s => if s = "" then d else s

/-- JS truthiness of a nullable string: `null`/`undefined` and `""` are falsy. -/
def jsTruthy (v : Option String) : Bool :=
  match v with
  | none => false
  | some s => s ≠ ""

/-- Node `path.basename`, lower-level model: the component after the last `/`
(the longest `/`-free suffix). -/
def jsBasename (p : String) : String :=
  String.mk ((p.data.reverse.takeWhile (fun c => c != '/')).reverse)

/-! ## Retry utility (`src/utils/retry.ts`) -/

/-- Default retryable-error classifier from `defaultOptions.retryableErrors`:
matches transient network/overload signatures in the lowercased message. -/
def defaultRetryable (msg : String) : Bool :=
  let m := jsLower msg
  jsIncludes m "timeout" ||
  jsIncludes m "rate limit" ||
  jsIncludes m "econnreset" ||
  jsIncludes m "enotfound" ||
  jsIncludes m "socket hang up" ||
  jsIncludes m "overloaded" ||
  jsIncludes m "503" ||
  jsIncludes m "529"

/-- Retry policy after merging user options over `defaultOptions`
(`{ ...defaultOptions, ...options }`); defaults are those of
`defaultOptions`. The `onRetry` observer hook is side-effect-only
(it cannot alter control flow) and is omitted from the pure model. -/
structure RetryPolicy where
  maxAttempts : Int := 3
  initialDelayMs : ℚ := 1000
  maxDelayMs : ℚ := 10000
  backoffMultiplier : ℚ := 2
  retryableErrors : String → Bool := defaultRetryable

/-- Policy with every field at its `defaultOptions` value. -/
def defaultOptions : RetryPolicy := {}

/-- The delay sequence slept by `withRetry`: starts at `delay`, and after each
retry the next delay is `min (previous * mult) maxD`. -/
def delaysFrom (delay mult maxD : ℚ) : Nat → List ℚ
  | 0 => []
  | n + 1 => delay :: delaysFrom (min (delay * mult) maxD) mult maxD n

/-- Loop body of `withRetry` (the `for` loop over attempts `1..maxAttempts`).
`n` is the number of attempts still allowed, `attempt` the 1-based index of
the next attempt, `delay` the current backoff delay. The operation is
modelled attempt-indexed (`op attempt`) to allow per-call behaviour.
Returns the outcome, the list of delays slept, and the number of times the
operation was invoked. -/
def retryGo {α : Type} (op : Nat → Except String α) (retryable : String → Bool)
    (mult maxD : ℚ) : Nat → Nat → ℚ → Except String α × List ℚ × Nat
  | 0, _, _ => (.error "Unknown error", [], 0)
  | n + 1, attempt, delay =>
    match op attempt with
    | .ok v => (.ok v, [], 1)
    | .error err =>
      if n = 0 ∨ retryable err = false then
        (.error err, [], 1)
      else
        let rest := retryGo op retryable mult maxD n (attempt + 1) (min (delay * mult) maxD)
        (rest.1, delay :: rest.2.1, rest.2.2 + 1)

/-- Model of `withRetry`: if `maxAttempts < 1` the loop body never runs and
the trailing `throw lastError` raises the placeholder `Error('Unknown error')`;
otherwise the attempt loop runs starting at attempt 1 with the initial delay. -/
def withRetry {α : Type} (op : Nat → Except String α) (p : RetryPolicy) :
    Except String α × List ℚ × Nat :=
  if p.maxAttempts < 1 then (.error "Unknown error", [], 0)
  else retryGo op p.retryableErrors p.backoffMultiplier p.maxDelayMs
    p.maxAttempts.toNat 1 p.initialDelayMs

/-! ### Retry lemmas -/

lemma retryGo_all_fail {α : Type} (op : Nat → Except String α) (retryable : String → Bool)
    (mult maxD : ℚ) (e : Nat → String)
    (hop : ∀ k, op k = .error (e k)) (hret : ∀ k, retryable (e k) = true) :
    ∀ n attempt delay, 1 ≤ n →
      retryGo op retryable mult maxD n attempt delay =
        (.error (e (attempt + n - 1)), delaysFrom delay mult maxD (n - 1), n) := by
  intro n
  induction n with
  | zero => intro attempt delay h; omega
  | succ n ih =>
    intro attempt delay _
    by_cases hn0 : n = 0
    · subst hn0
      simp [retryGo, hop attempt, delaysFrom]
    · have hn : 1 ≤ n := Nat.one_le_iff_ne_zero.mpr hn0
      have hne : ¬ (n = 0 ∨ retryable (e attempt) = false) := by
        simp [hn0, hret attempt]
      have hrec := ih (attempt + 1) (min (delay * mult) maxD) hn
      simp only [retryGo, hop attempt, if_neg hne, hrec]
      have h1 : attempt + 1 + n - 1 = attempt + (n + 1) - 1 := by omega
      have h2 : n + 1 - 1 = (n - 1) + 1 := by omega
      rw [h1, h2, delaysFrom]

lemma delaysFrom_le_max (mult maxD : ℚ) :
    ∀ n delay, delay ≤ maxD → ∀ q ∈ delaysFrom delay mult maxD n, q ≤ maxD := by
  intro n
  induction n with
  | zero => intro delay _ q hq; simp [delaysFrom] at hq
  | succ n ih =>
    intro delay hle q hq
    rw [delaysFrom] at hq
    rcases List.mem_cons.mp hq with h | h
    · exact h ▸ hle
    · exact ih _ (min_le_right _ _) q h

lemma delaysFrom_chain (mult maxD : ℚ) (hmult : 1 ≤ mult) :
    ∀ n delay, 0 ≤ delay → delay ≤ maxD →
      List.Chain' (· ≤ ·) (delaysFrom delay mult maxD n) := by
  intro n
  induction n with
  | zero => intro delay _ _; simp [delaysFrom]
  | succ n ih =>
    intro delay hd hle
    rw [delaysFrom]
    have hnext₀ : 0 ≤ min (delay * mult) maxD := by
      have : delay ≤ delay * mult := le_mul_of_one_le_right hd hmult
      have hdm : 0 ≤ delay * mult := le_trans hd this
      exact le_min hdm (le_trans hd hle)
    have hnextle : min (delay * mult) maxD ≤ maxD := min_le_right _ _
    have htail := ih (min (delay * mult) maxD) hnext₀ hnextle
    cases n with
    | zero => simp [delaysFrom]
    | succ m =>
      rw [delaysFrom]
      rw [delaysFrom] at htail
      refine List.Chain'.cons ?_ htail
      exact le_min (le_mul_of_one_le_right hd hmult) hle

/-! ## Data model (`src/types.ts`) -/

/-- One parsed commit touching the analyzed range (`CommitInfo`). -/
structure CommitInfo where
  hash : String
  shortHash : String
  author : String
  authorEmail : String
  date : String
  message : String
  linesChanged : Int
deriving Repr, DecidableEq

/-- Derived per-author ownership statistics (`CodeOwner`). -/
structure CodeOwner where
  name : String
  email : String
  commits : Nat
  linesChanged : Int
  percentage : ℤ
  lastContribution : String
deriving Repr, DecidableEq

/-- Result of the git history miner (`GitAnalysisResult`). -/
structure GitAnalysisResult where
  commits : List CommitInfo
  owners : List CodeOwner
  lastModified : String
  createdAt : String
  totalChanges : Int
  changeFrequency : String
deriving Repr, DecidableEq

/-- One risk entry (`RiskAssessment`); `level ∈ {low, medium, high, critical}`. -/
structure RiskEntry where
  level : String
  description : String
  recommendation : String
deriving Repr, DecidableEq

/-- One suggested test (`SuggestedTest`). -/
structure SuggestedTest where
  type : String
  description : String
  priority : String
  reason : Option String
deriving Repr, DecidableEq

/-- Result of the purpose summarizer (`CodeAnalysisResult`). The
`suggestedTests` field is optional in the source (`suggestedTests?`):
the heuristic strategy does not set it. -/
structure CodeAnalysisResult where
  purpose : String
  mainPurposeCategory : String
  codeType : String
  complexity : String
  dependencies : List String
  exports : List String
  potentialPurposes : List String
  whyItExists : Option String
  risks : List RiskEntry
  suggestedTests : Option (List SuggestedTest)
deriving Repr, DecidableEq

/-- One pull-request record (`PullRequestInfo`). -/
structure PullRequestInfo where
  number : Int
  title : String
  url : String
  author : String
  state : String
  createdAt : String
  mergedAt : Option String
  description : String
  labels : List String
deriving Repr, DecidableEq

/-- Result of the GitHub PR resolver (`GitHubAnalysisResult`). -/
structure GitHubAnalysisResult where
  repoUrl : Option String
  pullRequests : List PullRequestInfo
  error : Option String
deriving Repr, DecidableEq

/-- The merged report (`AnalysisResult`). `analyzedAt` is the assembly
timestamp in epoch milliseconds; `fromCache`/`cacheAge` are absent (`none`)
on a freshly computed report and set only when a report is served from
the cache. -/
structure AnalysisResult where
  filePath : String
  startLine : Int
  endLine : Int
  code : String
  codeAnalysis : CodeAnalysisResult
  gitAnalysis : GitAnalysisResult
  githubAnalysis : GitHubAnalysisResult
  analyzedAt : Int
  fromCache : Option Bool := none
  cacheAge : Option Int := none
deriving Repr, DecidableEq

end WITC
namespace WITC

/-- Claim C3 (amended): an operation that always fails with an error the
policy classifies as retryable is invoked exactly `maxAttempts` times
(for `maxAttempts ≥ 1`) and `withRetry` then fails with the final attempt's
error; the delay sequence starts at `initialDelay` and each subsequent delay
is `min (previous × backoffMultiplier) maxDelay`; when additionally
`0 ≤ initialDelay ≤ maxDelay` and `backoffMultiplier ≥ 1`, the sequence is
non-decreasing and every delay is at most `maxDelay` (the first delay is the
uncapped `initialDelay`, so the cap only binds it via that hypothesis). -/
theorem withRetry_exhaustion {α : Type} (p : RetryPolicy) (op : Nat → Except String α)
    (e : Nat → String)
    (hmax : 1 ≤ p.maxAttempts)
    (hop : ∀ k, op k = .error (e k))
    (hret : ∀ k, p.retryableErrors (e k) = true) :
    withRetry op p =
      (.error (e p.maxAttempts.toNat),
       delaysFrom p.initialDelayMs p.backoffMultiplier p.maxDelayMs (p.maxAttempts.toNat - 1),
       p.maxAttempts.toNat) ∧
    (0 ≤ p.initialDelayMs → p.initialDelayMs ≤ p.maxDelayMs → 1 ≤ p.backoffMultiplier →
      List.Chain' (· ≤ ·)
        (delaysFrom p.initialDelayMs p.backoffMultiplier p.maxDelayMs (p.maxAttempts.toNat - 1)) ∧
      ∀ q ∈ delaysFrom p.initialDelayMs p.backoffMultiplier p.maxDelayMs (p.maxAttempts.toNat - 1),
        q ≤ p.maxDelayMs) := by
  have hnat : 1 ≤ p.maxAttempts.toNat := by omega
  constructor
  · rw [withRetry, if_neg (by omega)]
    have hgo := retryGo_all_fail op p.retryableErrors p.backoffMultiplier p.maxDelayMs e hop hret
      p.maxAttempts.toNat 1 p.initialDelayMs hnat
    have harg : 1 + p.maxAttempts.toNat - 1 = p.maxAttempts.toNat := by omega
    rw [hgo, harg]
  · intro h0 hle hmult
    exact ⟨delaysFrom_chain _ _ hmult _ _ h0 hle,
      delaysFrom_le_max _ _ _ _ hle⟩

theorem withRetry_exhaustion_witness :
    (1 : Int) ≤ defaultOptions.maxAttempts ∧
    withRetry (fun _ => (.error "timeout" : Except String Unit)) defaultOptions =
      (.error "timeout", delaysFrom 1000 2 10000 2, 3) := by
  refine ⟨by decide, ?_⟩
  have hto : defaultRetryable "timeout" = true := by decide
  have h := withRetry_exhaustion defaultOptions
    (fun _ => (.error "timeout" : Except String Unit)) (fun _ => "timeout")
    (by decide) (fun _ => rfl) (fun _ => hto)
  exact h.1

/-- counterexample to C3 as stated -/
def cexRetryPolicy : RetryPolicy :=
  { maxAttempts := 3, initialDelayMs := 20000, maxDelayMs := 10000, backoffMultiplier := 2 }

theorem withRetry_first_delay_uncapped :
    (withRetry (fun _ => (.error "timeout" : Except String Unit)) cexRetryPolicy).2.1 =
      [20000, 10000] ∧
    ¬ (∀ q ∈ (withRetry (fun _ => (.error "timeout" : Except String Unit)) cexRetryPolicy).2.1,
        q ≤ cexRetryPolicy.maxDelayMs) ∧
    ¬ List.Chain' (· ≤ ·)
        (withRetry (fun _ => (.error "timeout" : Except String Unit)) cexRetryPolicy).2.1 := by
  have hlist : (withRetry (fun _ => (.error "timeout" : Except String Unit)) cexRetryPolicy).2.1 =
      [20000, 10000] := by
    have hto : defaultRetryable "timeout" = true := by decide
    have hgo := retryGo_all_fail (fun _ => (.error "timeout" : Except String Unit))
      cexRetryPolicy.retryableErrors cexRetryPolicy.backoffMultiplier
      cexRetryPolicy.maxDelayMs (fun _ => "timeout") (fun _ => rfl) (fun _ => hto)
      cexRetryPolicy.maxAttempts.toNat 1 cexRetryPolicy.initialDelayMs (by decide)
    rw [withRetry, if_neg (by decide), hgo]
    show delaysFrom 20000 2 10000 2 = [20000, 10000]
    rw [delaysFrom, delaysFrom, delaysFrom]
    norm_num [min_def]
  refine ⟨hlist, ?_, ?_⟩
  · rw [hlist]
    intro h
    have := h 20000 (by simp)
    norm_num [cexRetryPolicy] at this
  · rw [hlist]
    intro h
    rcases h with _ | ⟨h1, _⟩
    norm_num at h1

/-- Claim C10: with a zero or negative `maxAttempts` the attempt loop is
never entered, so the operation is never invoked and `withRetry` fails with
the placeholder `Error('Unknown error')`. -/
theorem withRetry_nonpositive_attempts {α : Type} (p : RetryPolicy)
    (op : Nat → Except String α) (h : p.maxAttempts ≤ 0) :
    withRetry op p = (.error "Unknown error", [], 0) := by
  rw [withRetry, if_pos (by omega)]

theorem withRetry_nonpositive_attempts_witness :
    ({ defaultOptions with maxAttempts := 0 } : RetryPolicy).maxAttempts ≤ 0 ∧
    withRetry (fun _ => (.ok () : Except String Unit)) { defaultOptions with maxAttempts := 0 } =
      (.error "Unknown error", [], 0) :=
  ⟨by decide, withRetry_nonpositive_attempts _ _ (by decide)⟩


/-! ## Result cache and orchestrator (`src/extension.ts`) -/

/-- Cache entry (`CacheEntry` in `extension.ts`): the stored report, the md5
hash of the analyzed code text, and the creation timestamp. -/
structure CacheEntry where
  result : AnalysisResult
  codeHash : String
  timestamp : Int
deriving Repr, DecidableEq

/-- Cache key (`getCacheKey`): `path:startLine:endLine`. -/
def getCacheKey (filePath : String) (startLine endLine : Int) : String :=
  filePath ++ ":" ++ toString startLine ++ ":" ++ toString endLine

/-- Model of `getCachedResult`. `hashFn` stands for the md5 digest
(`getCodeHash`), `now` for `Date.now()`, `ttlMs` for `getCacheTtlMs()`.
Returns the possibly-updated cache (the source deletes stale entries from the
global map in place) together with the looked-up result. -/
def getCachedResult (hashFn : String → String) (ttlMs now : Int)
    (cache : List (String × CacheEntry)) (filePath : String) (startLine endLine : Int)
    (code : String) : List (String × CacheEntry) × Option AnalysisResult :=
  match mapGet cache (getCacheKey filePath startLine endLine) with
  | none => (cache, none)
  | some entry =>
    if now - entry.timestamp > ttlMs ∨ entry.codeHash ≠ hashFn code then
      (mapDelete cache (getCacheKey filePath startLine endLine), none)
    else
      (cache, some entry.result)

/-- Model of `setCachedResult`. -/
def setCachedResult (hashFn : String → String) (now : Int)
    (cache : List (String × CacheEntry)) (filePath : String) (startLine endLine : Int)
    (code : String) (result : AnalysisResult) : List (String × CacheEntry) :=
  mapSet cache (getCacheKey filePath startLine endLine)
    { result := result, codeHash := hashFn code, timestamp := now }

/-- The `lastAnalysis` record tracked for the refresh command. -/
structure LastAnalysis where
  filePath : String
  startLine : Int
  endLine : Int
  code : String
deriving Repr, DecidableEq

/-- The extension's module-level mutable state: `analysisCache`,
`lastAnalysis` and the `analysisInProgress` busy flag. (The
`analysisCancelled` flag is modelled in `AnalyzeDeps.cancelAt`, since it is
written only by the user's cancellation request.) -/
structure ExtState where
  analysisCache : List (String × CacheEntry)
  lastAnalysis : Option LastAnalysis
  analysisInProgress : Bool
deriving Repr, DecidableEq

/-- What the user picks in the "Claude API key not configured" dialog. -/
inductive KeyChoice
  | setApiKey
  | continueAnyway
  | dismissed
deriving Repr, DecidableEq

/-- External calls the orchestrator can make, in the order issued. -/
inductive ExtCall
  | gitCall
  | claudeCall
  | githubCall
deriving Repr, DecidableEq

/-- Observable outcome of one `analyzeCode` invocation. -/
inductive Outcome
  | busy
  | cachedHit (result : AnalysisResult)
  | keySetupAbort
  | cancelled
  | completed (result : AnalysisResult)
  | failed (message : String)
deriving Repr, DecidableEq

/-- Environment of one `analyzeCode` invocation: the md5 digest, the cache
TTL, the invocation's clock reading, credential availability, the user's
dialog choice when the key is missing, the cancellation instant, and the
three collaborators as oracle functions (`Except` models a rejected
promise). -/
structure AnalyzeDeps where
  hashFn : String → String
  ttlMs : Int
  now : Int
  claudeApiKey : Option String
  keyChoice : KeyChoice
  cancelAt : Option Nat
  gitAnalyze : String → Int → Int → Except String GitAnalysisResult
  codeAnalyze : String → String → List CommitInfo → Except String CodeAnalysisResult
  githubAnalyze : String → List CommitInfo → Except String GitHubAnalysisResult

/-- Whether the cooperative-cancellation flag reads true at the `k`-th
stage-boundary check (the flag is monotone once set). -/
def cancelledAt (d : AnalyzeDeps) (k : Nat) : Bool :=
  match d.cancelAt with
  | none => false
  | some j => j ≤ k

/-- The `withProgress` body of `analyzeCode`: sets the busy flag, runs the
three stages with a cancellation check before each and before delivery,
assembles the report, caches it, and clears the busy flag (`finally`).
A collaborator error is caught by the orchestrator `catch`, which reports
failure unless the user has meanwhile cancelled. -/
def runStages (d : AnalyzeDeps) (st2 : ExtState) (filePath : String)
    (startLine endLine : Int) (code : String) : ExtState × Outcome × List ExtCall :=
  if cancelledAt d 0 then ({ st2 with analysisInProgress := false }, .cancelled, [])
  else
    match d.gitAnalyze filePath startLine endLine with
    | .error msg =>
      ({ st2 with analysisInProgress := false },
        if cancelledAt d 1 then .cancelled else .failed msg, [.gitCall])
    | .ok gitRes =>
      if cancelledAt d 1 then
        ({ st2 with analysisInProgress := false }, .cancelled, [.gitCall])
      else
        match d.codeAnalyze code filePath gitRes.commits with
        | .error msg =>
          ({ st2 with analysisInProgress := false },
            if cancelledAt d 2 then .cancelled else .failed msg, [.gitCall, .claudeCall])
        | .ok codeRes =>
          if cancelledAt d 2 then
            ({ st2 with analysisInProgress := false }, .cancelled, [.gitCall, .claudeCall])
          else
            match d.githubAnalyze filePath gitRes.commits with
            | .error msg =>
              ({ st2 with analysisInProgress := false },
                if cancelledAt d 3 then .cancelled else .failed msg,
                [.gitCall, .claudeCall, .githubCall])
            | .ok hubRes =>
              if cancelledAt d 3 then
                ({ st2 with analysisInProgress := false }, .cancelled,
                  [.gitCall, .claudeCall, .githubCall])
              else
                ({ st2 with
                    analysisCache := setCachedResult d.hashFn d.now st2.analysisCache
                      filePath startLine endLine code
                      { filePath := filePath, startLine := startLine, endLine := endLine,
                        code := code, codeAnalysis := codeRes, gitAnalysis := gitRes,
                        githubAnalysis := hubRes, analyzedAt := d.now },
                    analysisInProgress := false },
                  .completed
                    { filePath := filePath, startLine := startLine, endLine := endLine,
                      code := code, codeAnalysis := codeRes, gitAnalysis := gitRes,
                      githubAnalysis := hubRes, analyzedAt := d.now },
                  [.gitCall, .claudeCall, .githubCall])

/-- Model of `analyzeCode`: busy rejection, `lastAnalysis` update, cache
lookup (skipped on force-refresh; a hit is annotated with `fromCache` and
`cacheAge` and returned without any external call), the missing-API-key
dialog, then the staged analysis. -/
def analyzeCode (d : AnalyzeDeps) (st : ExtState) (filePath : String)
    (startLine endLine : Int) (code : String) (forceRefresh : Bool) :
    ExtState × Outcome × List ExtCall :=
  if st.analysisInProgress then (st, .busy, [])
  else
    match (if forceRefresh then
        (({ st with lastAnalysis := some ⟨filePath, startLine, endLine, code⟩ } :
            ExtState).analysisCache, none)
      else
        getCachedResult d.hashFn d.ttlMs d.now
          ({ st with lastAnalysis := some ⟨filePath, startLine, endLine, code⟩ } :
            ExtState).analysisCache filePath startLine endLine code) with
  | (cache', some r) =>
    ({ analysisCache := cache',
        lastAnalysis := some ⟨filePath, startLine, endLine, code⟩,
        analysisInProgress := st.analysisInProgress },
      .cachedHit { r with fromCache := some true, cacheAge := some (d.now - r.analyzedAt) },
      [])
  | (cache', none) =>
    match d.claudeApiKey, d.keyChoice with
    | none, .setApiKey =>
      ({ analysisCache := cache',
          lastAnalysis := some ⟨filePath, startLine, endLine, code⟩,
          analysisInProgress := st.analysisInProgress }, .keySetupAbort, [])
    | none, .dismissed =>
      ({ analysisCache := cache',
          lastAnalysis := some ⟨filePath, startLine, endLine, code⟩,
          analysisInProgress := st.analysisInProgress }, .keySetupAbort, [])
    | _, _ =>
      runStages d
        { analysisCache := cache',
          lastAnalysis := some ⟨filePath, startLine, endLine, code⟩,
          analysisInProgress := true }
        filePath startLine endLine code


/-! ### Cache and orchestrator lemmas -/

lemma mapGet_mapSet_self {β : Type} (m : List (String × β)) (k : String) (v : β) :
    mapGet (mapSet m k v) k = some v := by
  induction m with
  | nil => simp [mapSet, mapGet]
  | cons p rest ih =>
    obtain ⟨k', v'⟩ := p
    by_cases h : k' = k
    · simp [mapSet, mapGet, h]
    · simp [mapSet, mapGet, h, ih]

lemma runStages_completed_inv (d : AnalyzeDeps) (st2 : ExtState) (fp : String)
    (s e : Int) (code : String) (st' : ExtState) (r : AnalysisResult) (calls : List ExtCall)
    (h : runStages d st2 fp s e code = (st', .completed r, calls)) :
    st'.analysisInProgress = false ∧ r.analyzedAt = d.now ∧ r.fromCache = none ∧
    st'.analysisCache = setCachedResult d.hashFn d.now st2.analysisCache fp s e code r := by
  rw [runStages] at h
  split at h
  · simp at h
  · split at h
    · split at h <;> simp at h
    · split at h
      · simp at h
      · split at h
        · split at h <;> simp at h
        · split at h
          · simp at h
          · split at h
            · split at h <;> simp at h
            · split at h
              · simp at h
              · simp only [Prod.mk.injEq, Outcome.completed.injEq] at h
                obtain ⟨hst, hr, _⟩ := h
                subst hst
                subst hr
                simp

lemma analyzeCode_completed_inv (d : AnalyzeDeps) (st : ExtState) (fp : String)
    (s e : Int) (code : String) (force : Bool) (st' : ExtState) (r : AnalysisResult)
    (calls : List ExtCall)
    (h : analyzeCode d st fp s e code force = (st', .completed r, calls)) :
    st'.analysisInProgress = false ∧ r.analyzedAt = d.now ∧
    mapGet st'.analysisCache (getCacheKey fp s e) =
      some { result := r, codeHash := d.hashFn code, timestamp := d.now } := by
  rw [analyzeCode] at h
  split at h
  · simp at h
  · split at h
    · simp at h
    · split at h
      · simp at h
      · simp at h
      · obtain ⟨h1, h2, _, h4⟩ := runStages_completed_inv _ _ _ _ _ _ _ _ _ h
        refine ⟨h1, h2, ?_⟩
        rw [h4, setCachedResult]
        exact mapGet_mapSet_self _ _ _

/-- Claim C4: while the `analysisInProgress` flag is set, any arriving request
is rejected with the busy signal, performs no external call, caches nothing,
and leaves the whole extension state (including the running analysis's
bookkeeping) unchanged. -/
theorem analyzeCode_busy_rejection (d : AnalyzeDeps) (st : ExtState) (fp : String)
    (s e : Int) (code : String) (force : Bool) (h : st.analysisInProgress = true) :
    analyzeCode d st fp s e code force = (st, .busy, []) := by
  rw [analyzeCode]
  simp [h]

/-! ### Sample values for witnesses and counterexamples -/

def sampleCodeAnalysis : CodeAnalysisResult :=
  { purpose := "p", mainPurposeCategory := "unknown", codeType := "unknown",
    complexity := "low", dependencies := [], exports := [], potentialPurposes := [],
    whyItExists := none, risks := [], suggestedTests := none }

def sampleGitAnalysis : GitAnalysisResult :=
  { commits := [], owners := [], lastModified := "Unknown", createdAt := "Unknown",
    totalChanges := 0, changeFrequency := "Unknown" }

def sampleGithubAnalysis : GitHubAnalysisResult :=
  { repoUrl := none, pullRequests := [], error := none }

def sampleResult : AnalysisResult :=
  { filePath := "f", startLine := 1, endLine := 2, code := "abc",
    codeAnalysis := sampleCodeAnalysis, gitAnalysis := sampleGitAnalysis,
    githubAnalysis := sampleGithubAnalysis, analyzedAt := 0 }

def sampleDeps : AnalyzeDeps :=
  { hashFn := fun s => s, ttlMs := 1000, now := 0, claudeApiKey := some "sk-x",
    keyChoice := .continueAnyway, cancelAt := none,
    gitAnalyze := fun _ _ _ => .ok sampleGitAnalysis,
    codeAnalyze := fun _ _ _ => .ok sampleCodeAnalysis,
    githubAnalyze := fun _ _ => .ok sampleGithubAnalysis }

theorem analyzeCode_busy_rejection_witness :
    ({ analysisCache := [], lastAnalysis := none, analysisInProgress := true } :
        ExtState).analysisInProgress = true ∧
    analyzeCode sampleDeps
        { analysisCache := [], lastAnalysis := none, analysisInProgress := true }
        "f" 1 2 "abc" false =
      ({ analysisCache := [], lastAnalysis := none, analysisInProgress := true }, .busy, []) :=
  ⟨rfl, analyzeCode_busy_rejection _ _ _ _ _ _ _ rfl⟩

/-- Claim C1 (amended): a lookup serves the stored entry iff the entry exists,
its age is at most the TTL, and its stored code-hash equals the hash of the
current code; on an existing entry whose age exceeds the TTL or whose hash
differs, the entry is deleted and the lookup misses; with a collision-free
hash, a lookup under the same key with different code text always misses
(deleting the entry), hence triggers full re-analysis. -/
theorem getCachedResult_invariant (hashFn : String → String) (ttlMs now : Int)
    (cache : List (String × CacheEntry)) (fp : String) (s e : Int) (code : String) :
    (∀ r, (getCachedResult hashFn ttlMs now cache fp s e code).2 = some r ↔
      ∃ entry, mapGet cache (getCacheKey fp s e) = some entry ∧
        now - entry.timestamp ≤ ttlMs ∧ entry.codeHash = hashFn code ∧
        entry.result = r) ∧
    (∀ entry, mapGet cache (getCacheKey fp s e) = some entry →
      ttlMs < now - entry.timestamp ∨ entry.codeHash ≠ hashFn code →
      getCachedResult hashFn ttlMs now cache fp s e code =
        (mapDelete cache (getCacheKey fp s e), none)) ∧
    (Function.Injective hashFn →
      ∀ entry code₀, mapGet cache (getCacheKey fp s e) = some entry →
        entry.codeHash = hashFn code₀ → code₀ ≠ code →
        getCachedResult hashFn ttlMs now cache fp s e code =
          (mapDelete cache (getCacheKey fp s e), none)) := by
  have hB : ∀ entry, mapGet cache (getCacheKey fp s e) = some entry →
      ttlMs < now - entry.timestamp ∨ entry.codeHash ≠ hashFn code →
      getCachedResult hashFn ttlMs now cache fp s e code =
        (mapDelete cache (getCacheKey fp s e), none) := by
    intro entry hm hviol
    simp only [getCachedResult, hm]
    rw [if_pos]
    rcases hviol with hv | hv
    · exact Or.inl (by omega)
    · exact Or.inr hv
  refine ⟨?_, hB, ?_⟩
  · intro r
    rcases hm : mapGet cache (getCacheKey fp s e) with _ | entry
    · simp only [getCachedResult, hm]
      simp
    · simp only [getCachedResult, hm]
      by_cases hc : now - entry.timestamp > ttlMs ∨ entry.codeHash ≠ hashFn code
      · rw [if_pos hc]
        simp only [Option.some.injEq]
        constructor
        · intro hfalse
          exact absurd hfalse (by simp)
        · rintro ⟨entry', heq, httl, hhash, _⟩
          cases heq
          rcases hc with hv | hv
          · omega
          · exact absurd hhash hv
      · rw [if_neg hc]
        push_neg at hc
        obtain ⟨h1, h2⟩ := hc
        constructor
        · intro hr
          exact ⟨entry, rfl, by omega, h2, by simpa using hr⟩
        · rintro ⟨entry', heq, _, _, hres⟩
          cases heq
          simpa using hres
  · intro hinj entry code₀ hm hhash hne
    refine hB entry hm (Or.inr ?_)
    rw [hhash]
    intro hcontra
    exact hne (hinj hcontra)

theorem getCachedResult_invariant_witness :
    mapGet [(getCacheKey "f" 1 2,
        ({ result := sampleResult, codeHash := "abc", timestamp := 0 } : CacheEntry))]
      (getCacheKey "f" 1 2) =
      some { result := sampleResult, codeHash := "abc", timestamp := 0 } ∧
    ((1000 : Int) < 2000 - 0 ∨ ("abc" : String) ≠ (fun s => s) "abc") ∧
    getCachedResult (fun s => s) 1000 2000
        [(getCacheKey "f" 1 2,
          { result := sampleResult, codeHash := "abc", timestamp := 0 })] "f" 1 2 "abc" =
      (mapDelete [(getCacheKey "f" 1 2,
          { result := sampleResult, codeHash := "abc", timestamp := 0 })]
        (getCacheKey "f" 1 2), none) := by
  refine ⟨by simp [mapGet], Or.inl (by decide), ?_⟩
  exact (getCachedResult_invariant (fun s => s) 1000 2000 _ "f" 1 2 "abc").2.1
    { result := sampleResult, codeHash := "abc", timestamp := 0 }
    (by simp [mapGet]) (Or.inl (by decide))

/-- counterexample to C1 as stated: at age exactly equal to the TTL the entry
is still served, although the age is not less than the TTL. -/
theorem getCachedResult_ttl_boundary_counterexample :
    (getCachedResult (fun s => s) 1000 1000
        [(getCacheKey "f" 1 2,
          { result := sampleResult, codeHash := "abc", timestamp := 0 })]
        "f" 1 2 "abc").2 = some sampleResult ∧
    ¬ ((1000 : Int) - 0 < 1000) := by
  constructor
  · rw [getCachedResult]
    simp [mapGet]
  · decide

/-- Claim C2: a second submission of the same request within the TTL with
unchanged code text and no force-refresh is answered from the cache before
any stage runs (zero external calls), and the served report equals the first
one in every field except `fromCache := true` and a non-negative `cacheAge`. -/
theorem analyzeCode_cache_idempotent (d₁ d₂ : AnalyzeDeps) (st₀ st₁ : ExtState)
    (fp : String) (s e : Int) (code : String) (r : AnalysisResult) (calls₁ : List ExtCall)
    (h₁ : analyzeCode d₁ st₀ fp s e code false = (st₁, .completed r, calls₁))
    (hhash : d₂.hashFn code = d₁.hashFn code)
    (httl : d₂.now - d₁.now ≤ d₂.ttlMs)
    (hmono : d₁.now ≤ d₂.now) :
    analyzeCode d₂ st₁ fp s e code false =
      ({ st₁ with lastAnalysis := some ⟨fp, s, e, code⟩ },
        .cachedHit
          { r with fromCache := some true, cacheAge := some (d₂.now - r.analyzedAt) },
        []) ∧
    0 ≤ d₂.now - r.analyzedAt := by
  obtain ⟨hbusy, hat, hget⟩ := analyzeCode_completed_inv _ _ _ _ _ _ _ _ _ _ h₁
  have hlook : getCachedResult d₂.hashFn d₂.ttlMs d₂.now st₁.analysisCache fp s e code =
      (st₁.analysisCache, some r) := by
    simp only [getCachedResult, hget]
    rw [if_neg]
    rw [not_or]
    constructor
    · simp only [not_lt]
      omega
    · simp [hhash]
  constructor
  · rw [analyzeCode]
    rw [if_neg (by simp [hbusy])]
    simp only [Bool.false_eq_true, if_false]
    have : ({ st₁ with lastAnalysis := some ⟨fp, s, e, code⟩ } : ExtState).analysisCache =
        st₁.analysisCache := rfl
    rw [this, hlook, hbusy]
  · omega

/-- The state left behind by the first witness invocation. -/
def wState1 : ExtState :=
  { analysisCache := [(getCacheKey "f" 1 2,
      { result := sampleResult, codeHash := "abc", timestamp := 0 })],
    lastAnalysis := some ⟨"f", 1, 2, "abc"⟩,
    analysisInProgress := false }

theorem analyzeCode_cache_idempotent_witness :
    analyzeCode sampleDeps
        { analysisCache := [], lastAnalysis := none, analysisInProgress := false }
        "f" 1 2 "abc" false =
      (wState1, .completed sampleResult, [.gitCall, .claudeCall, .githubCall]) ∧
    ({ sampleDeps with now := 500 } : AnalyzeDeps).hashFn "abc" = sampleDeps.hashFn "abc" ∧
    ({ sampleDeps with now := 500 } : AnalyzeDeps).now - sampleDeps.now ≤
      ({ sampleDeps with now := 500 } : AnalyzeDeps).ttlMs ∧
    sampleDeps.now ≤ ({ sampleDeps with now := 500 } : AnalyzeDeps).now ∧
    (analyzeCode { sampleDeps with now := 500 } wState1 "f" 1 2 "abc" false =
      ({ wState1 with lastAnalysis := some ⟨"f", 1, 2, "abc"⟩ },
        .cachedHit
          { sampleResult with
            fromCache := some true,
            cacheAge := some (({ sampleDeps with now := 500 } : AnalyzeDeps).now -
              sampleResult.analyzedAt) },
        []) ∧
      0 ≤ ({ sampleDeps with now := 500 } : AnalyzeDeps).now - sampleResult.analyzedAt) :=
  ⟨by rfl, rfl, by decide, by decide,
    analyzeCode_cache_idempotent sampleDeps { sampleDeps with now := 500 }
      { analysisCache := [], lastAnalysis := none, analysisInProgress := false } wState1
      "f" 1 2 "abc" sampleResult [.gitCall, .claudeCall, .githubCall]
      (by rfl) rfl (by decide) (by decide)⟩

/-! ## Purpose summarizer validation (`src/analyzer/codeAnalyzer.ts`) -/

/-- The fixed closed enumeration of `MainPurposeCategory` values, in the order
of `validateMainPurposeCategory`. -/
def validCategories : List String :=
  ["business-logic", "ui-ux", "data-access", "state-management", "routing",
   "authentication", "authorization",
   "validation", "data-transform", "search",
   "api-client", "real-time", "notification", "event-system",
   "ai-ml",
   "payment", "analytics",
   "file-handling",
   "animation", "theming", "accessibility", "localization",
   "infrastructure", "middleware", "observability", "scheduling", "migration",
   "security", "rate-limiting",
   "testing", "utility", "performance", "feature-flag", "legacy",
   "geolocation", "unknown"]

/-- Model of `validateMainPurposeCategory`: a value outside the closed
enumeration (or an absent value) coerces to `"unknown"`. -/
def validateMainPurposeCategory (category : Option String) : String :=
  match category with
  | some c => if c ∈ validCategories then c else "unknown"
  | none => "unknown"

/-- Model of `validateCodeType`. -/
def validateCodeType (t : Option String) : String :=
  match t with
  | some ty =>
    if ty ∈ ["function", "class", "component", "module", "configuration",
        "test", "utility", "api", "unknown"] then ty else "unknown"
  | none => "unknown"

/-- Model of `validateComplexity`: anything outside the four ordinal levels
coerces to `"medium"`. -/
def validateComplexity (c : Option String) : String :=
  match c with
  | some cx => if cx ∈ ["low", "medium", "high", "very-high"] then cx else "medium"
  | none => "medium"

/-- One element of the untrusted `risks` array from the model response. -/
structure RiskInput where
  level : Option String
  description : Option String
  recommendation : Option String
deriving Repr, DecidableEq

/-- Per-element coercion done by `validateRisks`'s `map`. -/
def coerceRisk (r : RiskInput) : RiskEntry :=
  { level :=
      match r.level with
      | some l => if l ∈ ["low", "medium", "high", "critical"] then l else "medium"
      | none => "medium",
    description := jsOrDefault r.description "Risk identified",
    recommendation := jsOrDefault r.recommendation "Review carefully before changes" }

/-- The default risk list substituted by `validateRisks` when the `risks`
field is not an array. -/
def defaultRiskList : List RiskEntry :=
  [{ level := "low", description := "No specific risks identified",
     recommendation := "Standard testing practices should be sufficient" }]

/-- Model of `validateRisks`: a non-array coerces to the default singleton
list, an array is coerced element-wise (and not re-sorted). -/
def validateRisks (risks : Option (List RiskInput)) : List RiskEntry :=
  match risks with
  | none => defaultRiskList
  | some rs => rs.map coerceRisk

/-- One element of the untrusted `suggestedTests` array. -/
structure TestInput where
  type : Option String
  description : Option String
  priority : Option String
  reason : Option String
deriving Repr, DecidableEq

/-- Per-element coercion done by `validateSuggestedTests`'s `map`
(`test.reason || undefined` turns a falsy reason into an absent one). -/
def coerceTest (t : TestInput) : SuggestedTest :=
  { type :=
      match t.type with
      | some ty => if ty ∈ ["unit", "integration", "e2e", "manual"] then ty else "unit"
      | none => "unit",
    description := jsOrDefault t.description "Test case",
    priority :=
      match t.priority with
      | some p => if p ∈ ["high", "medium", "low"] then p else "medium"
      | none => "medium",
    reason :=
      match t.reason with
      | none => none
      | some s => if s = "" then none else some s }

/-- The `priorityOrder` table `{ high: 0, medium: 1, low: 2 }`; after
coercion every priority is one of the three keys, so the fall-through
branch is only ever taken by `"low"`. -/
def priorityOrder (p : String) : Nat :=
  if p = "high" then 0 else if p = "medium" then 1 else 2

/-- The deduplication key `type:description.toLowerCase().trim()`. -/
def testKey (t : SuggestedTest) : String :=
  t.type ++ ":" ++ (jsLower t.description).trim

/-- The seen-set filter of `validateSuggestedTests`: keeps the first
occurrence of every key. -/
def dedupByKey (seen : List String) : List SuggestedTest → List SuggestedTest
  | [] => []
  | t :: ts =>
    if testKey t ∈ seen then dedupByKey seen ts
    else t :: dedupByKey (testKey t :: seen) ts

/-- Model of `validateSuggestedTests`: a non-array coerces to the empty
list; an array is coerced element-wise, deduplicated by key, then stably
sorted by ascending `priorityOrder` (high, medium, low). -/
def validateSuggestedTests (tests : Option (List TestInput)) : List SuggestedTest :=
  match tests with
  | none => []
  | some ts =>
    (dedupByKey [] (ts.map coerceTest)).mergeSort
      (fun a b => decide (priorityOrder a.priority ≤ priorityOrder b.priority))

/-- The loosely-typed JSON object parsed from the Claude response; each field
may be missing or of the wrong shape (`none` for a list field means "not an
array"). -/
structure ClaudeJson where
  purpose : Option String
  mainPurposeCategory : Option String
  codeType : Option String
  complexity : Option String
  dependencies : Option (List String)
  exports : Option (List String)
  potentialPurposes : Option (List String)
  whyItExists : Option String
  risks : Option (List RiskInput)
  suggestedTests : Option (List TestInput)
deriving Repr, DecidableEq

/-- The validated mapping at the end of `analyzeWithClaude` (lines 232-243):
each field is parsed with a safe default. -/
def parseClaudeAnalysis (a : ClaudeJson) : CodeAnalysisResult :=
  { purpose := jsOrDefault a.purpose "Unable to determine purpose",
    mainPurposeCategory := validateMainPurposeCategory a.mainPurposeCategory,
    codeType := validateCodeType a.codeType,
    complexity := validateComplexity a.complexity,
    dependencies := a.dependencies.getD [],
    exports := a.exports.getD [],
    potentialPurposes := a.potentialPurposes.getD [],
    whyItExists :=
      match a.whyItExists with
      | none => none
      | some s => if s = "" then none else some s,
    risks := validateRisks a.risks,
    suggestedTests := some (validateSuggestedTests a.suggestedTests) }

/-- The `order` table `{ critical: 0, high: 1, medium: 2, low: 3 }` used to
sort heuristic risks; every produced level is one of the four keys, so the
fall-through branch is only ever taken by `"low"`. -/
def riskOrder (level : String) : Nat :=
  if level = "critical" then 0 else if level = "high" then 1
  else if level = "medium" then 2 else 3

/-- Model of the heuristic `assessRisks`: pushes rule-based risks, falls back
to a default entry when none fired, and sorts critical-first. -/
def assessRisks (code : String) (complexity : String) (dependencies : List String) :
    List RiskEntry :=
  let r1 : List RiskEntry :=
    if complexity = "high" ∨ complexity = "very-high" then
      [{ level := if complexity = "very-high" then "high" else "medium",
         description := "High code complexity makes changes error-prone",
         recommendation := "Consider refactoring into smaller, more focused functions" }]
    else []
  let r2 : List RiskEntry :=
    if 10 < dependencies.length then
      [{ level := "medium",
         description := "High number of dependencies (" ++ toString dependencies.length ++ ")",
         recommendation := "Changes may have cascading effects. Review import usage carefully." }]
    else []
  let r3 : List RiskEntry :=
    if jsIncludes code "window." || jsIncludes code "global." ||
        jsIncludes code "globalThis." then
      [{ level := "high", description := "Modifies global state",
         recommendation := "Global state changes can cause hard-to-debug issues." }]
    else []
  let r4 : List RiskEntry :=
    if jsIncludes code "eval(" || jsIncludes code "innerHTML" then
      [{ level := "critical",
         description := "Potential security vulnerability (eval/innerHTML)",
         recommendation := "These patterns can lead to XSS attacks. Use safer alternatives." }]
    else []
  let risks := r1 ++ r2 ++ r3 ++ r4
  let risks :=
    if risks = ([] : List RiskEntry) then
      [{ level := "low", description := "No significant risks detected",
         recommendation := "Standard testing practices should be sufficient for changes." }]
    else risks
  risks.mergeSort (fun a b => decide (riskOrder a.level ≤ riskOrder b.level))


/-! ### Validator lemmas -/

lemma pairwise_mergeSort_priority (l : List SuggestedTest) :
    List.Pairwise (fun a b => priorityOrder a.priority ≤ priorityOrder b.priority)
      (l.mergeSort (fun a b => decide (priorityOrder a.priority ≤ priorityOrder b.priority))) := by
  have h := @List.sorted_mergeSort SuggestedTest
    (fun a b : SuggestedTest => decide (priorityOrder a.priority ≤ priorityOrder b.priority))
    (fun a b c hab hbc => by
      simp only [decide_eq_true_eq] at hab hbc ⊢
      omega)
    (fun a b => by
      simp only [Bool.or_eq_true, decide_eq_true_eq]
      omega)
    l
  exact h.imp (fun hab => by simpa using hab)

lemma pairwise_mergeSort_risk (l : List RiskEntry) :
    List.Pairwise (fun a b => riskOrder a.level ≤ riskOrder b.level)
      (l.mergeSort (fun a b => decide (riskOrder a.level ≤ riskOrder b.level))) := by
  have h := @List.sorted_mergeSort RiskEntry
    (fun a b : RiskEntry => decide (riskOrder a.level ≤ riskOrder b.level))
    (fun a b c hab hbc => by
      simp only [decide_eq_true_eq] at hab hbc ⊢
      omega)
    (fun a b => by
      simp only [Bool.or_eq_true, decide_eq_true_eq]
      omega)
    l
  exact h.imp (fun hab => by simpa using hab)

lemma dedupByKey_spec : ∀ (ts : List SuggestedTest) (seen : List String),
    ((dedupByKey seen ts).map testKey).Nodup ∧
    ∀ k ∈ seen, k ∉ (dedupByKey seen ts).map testKey := by
  intro ts
  induction ts with
  | nil => intro seen; simp [dedupByKey]
  | cons t ts ih =>
    intro seen
    rw [dedupByKey]
    by_cases h : testKey t ∈ seen
    · rw [if_pos h]
      exact ih seen
    · rw [if_neg h]
      obtain ⟨hnd, hnot⟩ := ih (testKey t :: seen)
      constructor
      · simp only [List.map_cons, List.nodup_cons]
        exact ⟨hnot _ (by simp), hnd⟩
      · intro k hk
        simp only [List.map_cons, List.mem_cons, not_or]
        constructor
        · rintro rfl
          exact h hk
        · exact hnot k (by simp [hk])

lemma validateSuggestedTests_nodup (ts : Option (List TestInput)) :
    ((validateSuggestedTests ts).map testKey).Nodup := by
  cases ts with
  | none => simp [validateSuggestedTests]
  | some l =>
    rw [validateSuggestedTests]
    have hperm := (List.mergeSort_perm (dedupByKey [] (l.map coerceTest))
      (fun a b => decide (priorityOrder a.priority ≤ priorityOrder b.priority))).map testKey
    exact hperm.nodup_iff.mpr (dedupByKey_spec (l.map coerceTest) []).1

/-- Claim C5 (amended): every schema-invalid field of the model response is
coerced to its safe default: an unrecognized or absent category becomes
`"unknown"`, an unrecognized or absent complexity becomes `"medium"`, the
non-array list fields `dependencies`, `exports`, `potentialPurposes` and
`suggestedTests` become the empty sequence, and a non-array `risks` becomes
the default singleton low-risk entry (not the empty sequence). -/
theorem parseClaudeAnalysis_defaults (a : ClaudeJson) :
    (∀ c, a.mainPurposeCategory = some c → c ∉ validCategories →
      (parseClaudeAnalysis a).mainPurposeCategory = "unknown") ∧
    (a.mainPurposeCategory = none → (parseClaudeAnalysis a).mainPurposeCategory = "unknown") ∧
    (∀ c, a.complexity = some c → c ∉ ["low", "medium", "high", "very-high"] →
      (parseClaudeAnalysis a).complexity = "medium") ∧
    (a.complexity = none → (parseClaudeAnalysis a).complexity = "medium") ∧
    (a.dependencies = none → (parseClaudeAnalysis a).dependencies = []) ∧
    (a.exports = none → (parseClaudeAnalysis a).exports = []) ∧
    (a.potentialPurposes = none → (parseClaudeAnalysis a).potentialPurposes = []) ∧
    (a.suggestedTests = none → (parseClaudeAnalysis a).suggestedTests = some []) ∧
    (a.risks = none → (parseClaudeAnalysis a).risks = defaultRiskList) := by
  refine ⟨?_, ?_, ?_, ?_, ?_, ?_, ?_, ?_, ?_⟩
  · intro c hc hnot
    simp [parseClaudeAnalysis, validateMainPurposeCategory, hc, hnot]
  · intro hc
    simp [parseClaudeAnalysis, validateMainPurposeCategory, hc]
  · intro c hc hnot
    simp only [List.mem_cons, List.mem_singleton, not_or] at hnot
    simp [parseClaudeAnalysis, validateComplexity, hc, hnot]
  · intro hc
    simp [parseClaudeAnalysis, validateComplexity, hc]
  · intro hc
    simp [parseClaudeAnalysis, hc]
  · intro hc
    simp [parseClaudeAnalysis, hc]
  · intro hc
    simp [parseClaudeAnalysis, hc]
  · intro hc
    simp [parseClaudeAnalysis, validateSuggestedTests, hc]
  · intro hc
    simp [parseClaudeAnalysis, validateRisks, hc]

/-- A response whose list fields are all malformed and whose enum fields are
unrecognized. -/
def cexBadJson : ClaudeJson :=
  { purpose := none, mainPurposeCategory := some "bogus-category",
    codeType := some "bogus", complexity := some "gigantic",
    dependencies := none, exports := none, potentialPurposes := none,
    whyItExists := none, risks := none, suggestedTests := none }

theorem parseClaudeAnalysis_defaults_witness :
    (cexBadJson.mainPurposeCategory = some "bogus-category" ∧
      "bogus-category" ∉ validCategories ∧
      (parseClaudeAnalysis cexBadJson).mainPurposeCategory = "unknown") ∧
    (cexBadJson.complexity = some "gigantic" ∧
      "gigantic" ∉ ["low", "medium", "high", "very-high"] ∧
      (parseClaudeAnalysis cexBadJson).complexity = "medium") ∧
    (cexBadJson.dependencies = none ∧ (parseClaudeAnalysis cexBadJson).dependencies = []) ∧
    (cexBadJson.suggestedTests = none ∧
      (parseClaudeAnalysis cexBadJson).suggestedTests = some []) ∧
    (cexBadJson.risks = none ∧ (parseClaudeAnalysis cexBadJson).risks = defaultRiskList) :=
  ⟨⟨rfl, by decide, (parseClaudeAnalysis_defaults cexBadJson).1 _ rfl (by decide)⟩,
   ⟨rfl, by decide, (parseClaudeAnalysis_defaults cexBadJson).2.2.1 _ rfl (by decide)⟩,
   ⟨rfl, (parseClaudeAnalysis_defaults cexBadJson).2.2.2.2.1 rfl⟩,
   ⟨rfl, (parseClaudeAnalysis_defaults cexBadJson).2.2.2.2.2.2.2.1 rfl⟩,
   ⟨rfl, (parseClaudeAnalysis_defaults cexBadJson).2.2.2.2.2.2.2.2 rfl⟩⟩

/-- counterexample to C5 as stated: a non-array `risks` field is coerced to a
one-element default list, not to the empty sequence. -/
theorem validateRisks_nonarray_counterexample :
    (parseClaudeAnalysis cexBadJson).risks = defaultRiskList ∧
    (parseClaudeAnalysis cexBadJson).risks ≠ [] := by
  constructor
  · rfl
  · intro h
    simp [parseClaudeAnalysis, validateRisks, cexBadJson, defaultRiskList] at h

/-- Claim C6 (amended): the heuristic strategy's risk list (`assessRisks`) is
sorted critical-first; the reasoning-service strategy's risk list is only
coerced element-wise in response order, not re-sorted; the suggested-tests
list produced by `validateSuggestedTests` contains no two entries with the
same `(type, lowercased-and-trimmed description)` key and is sorted
priority-first (high, medium, low). -/
theorem riskAndTestOrdering :
    (∀ code complexity deps,
      List.Pairwise (fun a b => riskOrder a.level ≤ riskOrder b.level)
        (assessRisks code complexity deps)) ∧
    (∀ rs, validateRisks (some rs) = rs.map coerceRisk) ∧
    (∀ ts, List.Pairwise (fun a b => priorityOrder a.priority ≤ priorityOrder b.priority)
        (validateSuggestedTests ts) ∧
      ((validateSuggestedTests ts).map testKey).Nodup) := by
  refine ⟨?_, fun rs => rfl, ?_⟩
  · intro code complexity deps
    exact pairwise_mergeSort_risk _
  · intro ts
    refine ⟨?_, validateSuggestedTests_nodup ts⟩
    cases ts with
    | none => simp [validateSuggestedTests]
    | some l =>
      rw [validateSuggestedTests]
      exact pairwise_mergeSort_priority _

/-- A response whose risks arrive in the order `[low, critical]`. -/
def cexRisksJson : ClaudeJson :=
  { purpose := none, mainPurposeCategory := none, codeType := none, complexity := none,
    dependencies := none, exports := none, potentialPurposes := none, whyItExists := none,
    risks := some
      [{ level := some "low", description := some "a", recommendation := some "b" },
       { level := some "critical", description := some "c", recommendation := some "d" }],
    suggestedTests := none }

/-- counterexample to C6 as stated: the reasoning-service strategy keeps its
risks in response order, which here is not critical-first. -/
theorem claudeRisks_not_sorted_counterexample :
    (parseClaudeAnalysis cexRisksJson).risks =
      [{ level := "low", description := "a", recommendation := "b" },
       { level := "critical", description := "c", recommendation := "d" }] ∧
    ¬ List.Pairwise (fun a b => riskOrder a.level ≤ riskOrder b.level)
        ((parseClaudeAnalysis cexRisksJson).risks) := by
  constructor
  · rfl
  · intro h
    rw [parseClaudeAnalysis] at h
    simp only [cexRisksJson, validateRisks, List.map_cons, List.map_nil,
      List.pairwise_cons] at h
    have h2 := h.1
      (coerceRisk { level := some "critical", description := some "c", recommendation := some "d" })
      (by simp)
    simp [coerceRisk, riskOrder, jsOrDefault] at h2

/-! ## Review-link resolver (`src/analyzer/githubAnalyzer.ts`) -/

/-- One raw PR object as returned by the GitHub per-commit endpoint;
`user` holds the author login (`pr.user?.login` with a missing user as
`none`), `merged_at` and `body` are nullable. -/
structure RawPR where
  number : Int
  title : String
  html_url : String
  user : Option String
  state : String
  created_at : String
  merged_at : Option String
  body : Option String
  labels : Option (List String)
deriving Repr, DecidableEq

/-- Model of `truncateDescription`: a hard cap of 500 characters with a
trailing ellipsis marker. -/
def truncateDescription (description : String) : String :=
  if description.length ≤ 500 then description
  else (description.take 500) ++ "..."

/-- The per-object mapping inside `getPRsForCommit` (lines 142-152):
`state` is `"merged"` whenever `merged_at` is truthy, regardless of the raw
`state` field. -/
def mapPR (pr : RawPR) : PullRequestInfo :=
  { number := pr.number,
    title := pr.title,
    url := pr.html_url,
    author := jsOrDefault pr.user "Unknown",
    state := if jsTruthy pr.merged_at then "merged" else pr.state,
    createdAt := pr.created_at,
    mergedAt := pr.merged_at,
    description := truncateDescription (pr.body.getD ""),
    labels := pr.labels.getD [] }

/-- Claim C7: a produced PR record carrying a non-null merge timestamp (an
ISO timestamp is a nonempty string) is reported as `"merged"`, whatever the
raw open/closed `state` field said. -/
theorem mapPR_merged_precedence (pr : RawPR) (t : String)
    (hmerged : (mapPR pr).mergedAt = some t) (ht : t ≠ "") :
    (mapPR pr).state = "merged" := by
  have hraw : pr.merged_at = some t := hmerged
  simp [mapPR, jsTruthy, hraw, ht]

/-- A raw PR whose `state` is still `"closed"` although it was merged. -/
def wMergedPR : RawPR :=
  { number := 7, title := "t", html_url := "u", user := some "alice",
    state := "closed", created_at := "2024-01-02T00:00:00Z",
    merged_at := some "2024-01-03T00:00:00Z", body := some "b", labels := some ["bug"] }

theorem mapPR_merged_precedence_witness :
    (mapPR wMergedPR).mergedAt = some "2024-01-03T00:00:00Z" ∧
    ("2024-01-03T00:00:00Z" : String) ≠ "" ∧
    (mapPR wMergedPR).state = "merged" :=
  ⟨rfl, by decide, mapPR_merged_precedence wMergedPR "2024-01-03T00:00:00Z" rfl (by decide)⟩

/-! ## Heuristic category chain (`inferMainPurposeCategory`) -/

/-- Inputs of one category rule: the raw code text, its lowercased form, the
lowercased basename of the file, and the detected code type. -/
structure CatCtx where
  code : String
  lowerCode : String
  fileName : String
  codeType : String

/-- Testing rule (checked first). -/
def testingCat (c : CatCtx) : Bool :=
  c.codeType == "test" || jsIncludes c.fileName "test" || jsIncludes c.fileName "spec" ||
  jsIncludes c.fileName "mock" || jsIncludes c.fileName "fixture"

/-- Authentication rule. -/
def authCat (c : CatCtx) : Bool :=
  jsIncludes c.lowerCode "auth" || jsIncludes c.lowerCode "login" ||
  jsIncludes c.lowerCode "password" || jsIncludes c.lowerCode "token" ||
  jsIncludes c.lowerCode "session" || jsIncludes c.lowerCode "oauth" ||
  jsIncludes c.fileName "auth" || jsIncludes c.fileName "login"

/-- Security rule. -/
def securityCat (c : CatCtx) : Bool :=
  jsIncludes c.lowerCode "encrypt" || jsIncludes c.lowerCode "csrf" ||
  jsIncludes c.lowerCode "xss" || jsIncludes c.lowerCode "sanitize" ||
  jsIncludes c.lowerCode "security"

/-- Infrastructure/config rule. -/
def infraCat (c : CatCtx) : Bool :=
  c.codeType == "configuration" || jsIncludes c.fileName "config" ||
  jsIncludes c.fileName "webpack" || jsIncludes c.fileName "babel" ||
  jsIncludes c.fileName "eslint" || jsIncludes c.fileName "docker" ||
  jsIncludes c.fileName "ci" || jsIncludes c.fileName "env"

/-- UI/UX rule. -/
def uiCat (c : CatCtx) : Bool :=
  c.codeType == "component" || jsIncludes c.lowerCode "render" ||
  jsIncludes c.lowerCode "style" || jsIncludes c.lowerCode "animation" ||
  jsIncludes c.lowerCode "css" || jsIncludes c.lowerCode "theme" ||
  jsIncludes c.fileName "component" || jsIncludes c.fileName "view" ||
  jsIncludes c.fileName "page" || jsIncludes c.fileName "style" ||
  jsIncludes c.fileName "ui"

/-- Data-access rule. -/
def dataAccessCat (c : CatCtx) : Bool :=
  jsIncludes c.lowerCode "fetch" || jsIncludes c.lowerCode "axios" ||
  jsIncludes c.lowerCode "query" || jsIncludes c.lowerCode "database" ||
  jsIncludes c.lowerCode "repository" || jsIncludes c.lowerCode "api" ||
  jsIncludes c.lowerCode "graphql" || jsIncludes c.lowerCode "prisma" ||
  jsIncludes c.lowerCode "mongoose" || jsIncludes c.fileName "api" ||
  jsIncludes c.fileName "service" || jsIncludes c.fileName "repository"

/-- API-client / integration rule. -/
def apiClientCat (c : CatCtx) : Bool :=
  jsIncludes c.lowerCode "webhook" || jsIncludes c.lowerCode "stripe" ||
  jsIncludes c.lowerCode "aws" || jsIncludes c.lowerCode "firebase" ||
  jsIncludes c.lowerCode "twilio" || jsIncludes c.lowerCode "slack" ||
  jsIncludes c.fileName "integration" || jsIncludes c.fileName "plugin"

/-- Performance rule. -/
def perfCat (c : CatCtx) : Bool :=
  jsIncludes c.lowerCode "cache" || jsIncludes c.lowerCode "memo" ||
  jsIncludes c.lowerCode "lazy" || jsIncludes c.lowerCode "debounce" ||
  jsIncludes c.lowerCode "throttle" || jsIncludes c.lowerCode "optimize"

/-- Legacy-markers rule (note the raw-code `var ` check). -/
def legacyCat (c : CatCtx) : Bool :=
  jsIncludes c.lowerCode "deprecated" || jsIncludes c.lowerCode "todo:" ||
  jsIncludes c.lowerCode "fixme" || jsIncludes c.lowerCode "hack" ||
  jsIncludes c.lowerCode "workaround" || jsIncludes c.lowerCode "legacy" ||
  jsIncludes c.code "var "

/-- Generic utility rule. -/
def utilityCat (c : CatCtx) : Bool :=
  c.codeType == "utility" || jsIncludes c.fileName "util" ||
  jsIncludes c.fileName "helper" || jsIncludes c.fileName "common" ||
  jsIncludes c.fileName "shared"

/-- Business-logic fallback for recognizable code shapes. -/
def bizCat (c : CatCtx) : Bool :=
  c.codeType == "class" || c.codeType == "function" || c.codeType == "module"

/-- The specified rule chain, in the exact order the spec gives. -/
def categoryChain : List ((CatCtx → Bool) × String) :=
  [(testingCat, "testing"), (authCat, "authentication"), (securityCat, "security"),
   (infraCat, "infrastructure"), (uiCat, "ui-ux"), (dataAccessCat, "data-access"),
   (apiClientCat, "api-client"), (perfCat, "performance"), (legacyCat, "legacy"),
   (utilityCat, "utility"), (bizCat, "business-logic")]

/-- First-match-wins evaluation of a rule chain. -/
def firstMatch (rules : List ((CatCtx → Bool) × String)) (c : CatCtx) (dflt : String) :
    String :=
  match rules with
  | [] => dflt
  | (cond, cat) :: rest => if cond c then cat else firstMatch rest c dflt

/-- The context built at the top of `inferMainPurposeCategory`. -/
def mkCatCtx (code filePath codeType : String) : CatCtx :=
  { code := code, lowerCode := jsLower code,
    fileName := jsLower (jsBasename filePath), codeType := codeType }

/-- Model of `inferMainPurposeCategory`: the ordered keyword/filename chain. -/
def inferMainPurposeCategory (code filePath codeType : String) : String :=
  let c := mkCatCtx code filePath codeType
  if testingCat c then "testing"
  else if authCat c then "authentication"
  else if securityCat c then "security"
  else if infraCat c then "infrastructure"
  else if uiCat c then "ui-ux"
  else if dataAccessCat c then "data-access"
  else if apiClientCat c then "api-client"
  else if perfCat c then "performance"
  else if legacyCat c then "legacy"
  else if utilityCat c then "utility"
  else if bizCat c then "business-logic"
  else "unknown"

/-! ### Substring-under-lowercasing lemmas -/

lemma leadMatch_map (f : Char → Char) :
    ∀ p l, leadMatch p l = true → leadMatch (p.map f) (l.map f) = true := by
  intro p
  induction p with
  | nil => intro l _; simp [leadMatch]
  | cons a as ih =>
    intro l h
    cases l with
    | nil => simp [leadMatch] at h
    | cons b bs =>
      rw [leadMatch, Bool.and_eq_true] at h
      obtain ⟨hab, hrest⟩ := h
      have : a = b := by simpa using hab
      subst this
      simp only [List.map_cons, leadMatch, Bool.and_eq_true]
      exact ⟨by simp, ih bs hrest⟩

lemma occursIn_map (f : Char → Char) :
    ∀ l p, occursIn p l = true → occursIn (p.map f) (l.map f) = true := by
  intro l
  induction l with
  | nil =>
    intro p h
    rw [occursIn] at h
    cases p with
    | nil => simp [occursIn, leadMatch]
    | cons a as => simp [leadMatch] at h
  | cons c cs ih =>
    intro p h
    rw [occursIn, Bool.or_eq_true] at h
    rw [List.map_cons, occursIn, Bool.or_eq_true]
    rcases h with h | h
    · exact Or.inl (by simpa using leadMatch_map f p (c :: cs) h)
    · exact Or.inr (ih p h)

lemma jsIncludes_lower (s pat : String)
    (hp : pat.data.map Char.toLower = pat.data)
    (h : jsIncludes s pat = true) : jsIncludes (jsLower s) pat = true := by
  have hm := occursIn_map Char.toLower s.data pat.data h
  rw [hp] at hm
  exact hm

/-- Claim C9: the heuristic category assignment is exactly first-match-wins
over the specified ordered rule chain, and in particular any code containing
`"login"` and `"token"` that matches no testing indicator is categorized
`"authentication"`. -/
theorem inferMainPurposeCategory_chain :
    (∀ code filePath codeType,
      inferMainPurposeCategory code filePath codeType =
        firstMatch categoryChain (mkCatCtx code filePath codeType) "unknown") ∧
    (∀ code filePath codeType,
      testingCat (mkCatCtx code filePath codeType) = false →
      jsIncludes code "login" = true →
      jsIncludes code "token" = true →
      inferMainPurposeCategory code filePath codeType = "authentication") := by
  constructor
  · intro code filePath codeType
    rfl
  · intro code filePath codeType htest hlogin _
    have hlog : jsIncludes (jsLower code) "login" = true :=
      jsIncludes_lower _ _ (by decide) hlogin
    have hauth : authCat (mkCatCtx code filePath codeType) = true := by
      simp [authCat, mkCatCtx, hlog]
    rw [inferMainPurposeCategory]
    simp only [htest, Bool.false_eq_true, if_false, hauth, if_true]

theorem inferMainPurposeCategory_chain_witness :
    testingCat (mkCatCtx "login token x" "/a/b.ts" "function") = false ∧
    jsIncludes "login token x" "login" = true ∧
    jsIncludes "login token x" "token" = true ∧
    inferMainPurposeCategory "login token x" "/a/b.ts" "function" = "authentication" :=
  ⟨by decide, by decide, by decide,
    inferMainPurposeCategory_chain.2 "login token x" "/a/b.ts" "function"
      (by decide) (by decide) (by decide)⟩

/-! ## Ownership statistics (`src/analyzer/gitAnalyzer.ts`) -/

/-- Aggregated per-author data before the percentage is attached (the
values of `ownerMap` in `calculateOwnership`). -/
structure OwnerAcc where
  name : String
  email : String
  commits : Nat
  linesChanged : Int
  lastContribution : String
deriving Repr, DecidableEq

/-- Grouping key: `commit.authorEmail || commit.author` (the empty email is
falsy). -/
def ownerKey (c : CommitInfo) : String :=
  if c.authorEmail = "" then c.author else c.authorEmail

/-- One step of the grouping loop in `calculateOwnership`: bump the existing
aggregate in place (JS `Map` keeps its position) or append a fresh one. -/
def updateOwner (c : CommitInfo) : List (String × OwnerAcc) → List (String × OwnerAcc)
  | [] => [(ownerKey c,
      { name := c.author, email := c.authorEmail, commits := 1,
        linesChanged := c.linesChanged, lastContribution := c.date })]
  | (k, o) :: rest =>
    if k = ownerKey c then
      (k, { o with
        commits := o.commits + 1,
        linesChanged := o.linesChanged + c.linesChanged,
        lastContribution :=
          if o.lastContribution < c.date then c.date else o.lastContribution }) :: rest
    else (k, o) :: updateOwner c rest

/-- Attach the rounded percentage share:
`Math.round((owner.commits / totalCommits) * 100)` (for non-negative inputs
JS `Math.round` is `⌊x + 1/2⌋`, which is Mathlib's `round`). -/
def mkOwner (total : Nat) (o : OwnerAcc) : CodeOwner :=
  { name := o.name, email := o.email, commits := o.commits,
    linesChanged := o.linesChanged,
    percentage := round ((o.commits : ℚ) / (total : ℚ) * 100),
    lastContribution := o.lastContribution }

/-- Model of `calculateOwnership`: group commits by author identity, attach
percentages, and stably sort by commit count descending. -/
def calculateOwnership (commits : List CommitInfo) : List CodeOwner :=
  ((commits.foldl (fun m c => updateOwner c m) []).map
    (fun p => mkOwner commits.length p.2)).mergeSort
    (fun a b => decide (b.commits ≤ a.commits))

/-! ### Ownership lemmas -/

lemma updateOwner_commits_sum (c : CommitInfo) :
    ∀ m : List (String × OwnerAcc),
      ((updateOwner c m).map (fun p => p.2.commits)).sum =
        ((m.map (fun p => p.2.commits)).sum) + 1 := by
  intro m
  induction m with
  | nil => simp [updateOwner]
  | cons p rest ih =>
    obtain ⟨k, o⟩ := p
    rw [updateOwner]
    by_cases h : k = ownerKey c
    · rw [if_pos h]
      simp only [List.map_cons, List.sum_cons]
      omega
    · rw [if_neg h]
      simp only [List.map_cons, List.sum_cons, ih]
      omega

lemma foldl_owner_commits_sum :
    ∀ (l : List CommitInfo) (m : List (String × OwnerAcc)),
      ((l.foldl (fun m c => updateOwner c m) m).map (fun p => p.2.commits)).sum =
        ((m.map (fun p => p.2.commits)).sum) + l.length := by
  intro l
  induction l with
  | nil => intro m; simp
  | cons c cs ih =>
    intro m
    rw [List.foldl_cons, ih, updateOwner_commits_sum]
    simp
    omega

lemma abs_sum_sub_sum_le {α : Type} (f g : α → ℚ) :
    ∀ l : List α, (∀ o ∈ l, |f o - g o| ≤ 1 / 2) →
      |(l.map f).sum - (l.map g).sum| ≤ (l.length : ℚ) / 2 := by
  intro l
  induction l with
  | nil => intro _; simp
  | cons x xs ih =>
    intro h
    rw [List.map_cons, List.map_cons, List.sum_cons, List.sum_cons]
    have h1 : |f x - g x| ≤ 1 / 2 := h x (by simp)
    have h2 := ih (fun o ho => h o (by simp [ho]))
    have h3 : |f x + (xs.map f).sum - (g x + (xs.map g).sum)| ≤ (xs.length : ℚ) / 2 + 1 / 2 := by
      have heq : f x + (xs.map f).sum - (g x + (xs.map g).sum) =
          (f x - g x) + ((xs.map f).sum - (xs.map g).sum) := by ring
      rw [heq]
      calc |(f x - g x) + ((xs.map f).sum - (xs.map g).sum)| ≤
          |f x - g x| + |(xs.map f).sum - (xs.map g).sum| := abs_add _ _
        _ ≤ (xs.length : ℚ) / 2 + 1 / 2 := by linarith
    calc |f x + (xs.map f).sum - (g x + (xs.map g).sum)| ≤ (xs.length : ℚ) / 2 + 1 / 2 := h3
      _ = ((x :: xs).length : ℚ) / 2 := by
        simp only [List.length_cons]
        push_cast
        ring

lemma sum_map_ratio (m : List (String × OwnerAcc)) (t : ℚ) (ht : t ≠ 0)
    (hsum : (((m.map (fun p => p.2.commits)).sum : ℕ) : ℚ) = t) :
    (m.map (fun p => (p.2.commits : ℚ) / t * 100)).sum = 100 := by
  have h1 : (m.map (fun p => (p.2.commits : ℚ) / t * 100)) =
      m.map (fun p => (p.2.commits : ℚ) * (100 / t)) := by
    apply List.map_congr_left
    intro p _
    ring
  rw [h1, List.sum_map_mul_right]
  have h2 : (List.map (fun p : String × OwnerAcc => ((p.2.commits : ℚ))) m).sum =
      (((List.map (fun p : String × OwnerAcc => p.2.commits) m).sum : ℕ) : ℚ) := by
    rw [Nat.cast_list_sum, List.map_map]
    rfl
  rw [h2, hsum, mul_comm]
  exact div_mul_cancel₀ 100 ht

/-- Claim C8: for a non-empty commit set, each owner's percentage is the
rounded commit share (hence a non-negative integer), the percentages sum to
100 up to the accumulated rounding tolerance of half a point per owner, and
the owner list is sorted by commit count descending. -/
theorem calculateOwnership_spec (commits : List CommitInfo) (hne : commits ≠ []) :
    (∀ o ∈ calculateOwnership commits,
      o.percentage = round ((o.commits : ℚ) / (commits.length : ℚ) * 100) ∧
      0 ≤ o.percentage) ∧
    |((calculateOwnership commits).map (fun o => (o.percentage : ℚ))).sum - 100| ≤
      ((calculateOwnership commits).length : ℚ) / 2 ∧
    List.Pairwise (fun a b : CodeOwner => b.commits ≤ a.commits)
      (calculateOwnership commits) := by
  have htotpos : 0 < commits.length := List.length_pos.mpr hne
  have hperm : (calculateOwnership commits).Perm
      ((commits.foldl (fun m c => updateOwner c m) []).map
        (fun p => mkOwner commits.length p.2)) :=
    List.mergeSort_perm _ _
  have hsum_commits :
      (((commits.foldl (fun m c => updateOwner c m) []).map
        (fun p => p.2.commits)).sum) = commits.length := by
    have := foldl_owner_commits_sum commits []
    simpa using this
  refine ⟨?_, ?_, ?_⟩
  · intro o ho
    have homem := hperm.mem_iff.mp ho
    obtain ⟨p, hp, rfl⟩ := List.mem_map.mp homem
    refine ⟨rfl, ?_⟩
    show (0 : ℤ) ≤ round ((p.2.commits : ℚ) / (commits.length : ℚ) * 100)
    rw [round_eq]
    apply Int.floor_nonneg.mpr
    positivity
  · have hmapsum :
        ((calculateOwnership commits).map (fun o => (o.percentage : ℚ))).sum =
          (((commits.foldl (fun m c => updateOwner c m) []).map
            (fun p => mkOwner commits.length p.2)).map (fun o => (o.percentage : ℚ))).sum :=
      (hperm.map _).sum_eq
    have hlen :
        (calculateOwnership commits).length =
          ((commits.foldl (fun m c => updateOwner c m) []).map
            (fun p => mkOwner commits.length p.2)).length :=
      hperm.length_eq
    rw [hmapsum, hlen]
    have hpoint : ∀ o ∈ ((commits.foldl (fun m c => updateOwner c m) []).map
        (fun p => mkOwner commits.length p.2)),
        |(fun o : CodeOwner => (o.percentage : ℚ)) o -
          (fun o : CodeOwner => (o.commits : ℚ) / (commits.length : ℚ) * 100) o| ≤ 1 / 2 := by
      intro o ho
      obtain ⟨p, hp, rfl⟩ := List.mem_map.mp ho
      show |((round ((p.2.commits : ℚ) / (commits.length : ℚ) * 100) : ℤ) : ℚ) -
        (p.2.commits : ℚ) / (commits.length : ℚ) * 100| ≤ 1 / 2
      rw [abs_sub_comm]
      exact abs_sub_round _
    have hbound := abs_sum_sub_sum_le _ _ _ hpoint
    have hg : (((commits.foldl (fun m c => updateOwner c m) []).map
        (fun p => mkOwner commits.length p.2)).map
          (fun o : CodeOwner => (o.commits : ℚ) / (commits.length : ℚ) * 100)).sum = 100 := by
      rw [List.map_map]
      have hcomp : ((fun o : CodeOwner => (o.commits : ℚ) / (commits.length : ℚ) * 100) ∘
          (fun p : String × OwnerAcc => mkOwner commits.length p.2)) =
          fun p : String × OwnerAcc =>
            (p.2.commits : ℚ) / ((commits.length : ℕ) : ℚ) * 100 := rfl
      rw [hcomp]
      apply sum_map_ratio _ _ (Nat.cast_ne_zero.mpr (by omega))
      rw [hsum_commits]
    rw [← hg]
    exact hbound
  · have h := @List.sorted_mergeSort CodeOwner
      (fun a b : CodeOwner => decide (b.commits ≤ a.commits))
      (fun a b c hab hbc => by
        simp only [decide_eq_true_eq] at hab hbc ⊢
        omega)
      (fun a b => by
        simp only [Bool.or_eq_true, decide_eq_true_eq]
        omega)
      ((commits.foldl (fun m c => updateOwner c m) []).map
        (fun p => mkOwner commits.length p.2))
    exact h.imp (fun hab => by simpa using hab)

/-- The example history: two commits by Alice, one by Bob. -/
def wCommits : List CommitInfo :=
  [{ hash := "h1", shortHash := "s1", author := "Alice", authorEmail := "a@x",
     date := "2024-01-01", message := "m1", linesChanged := 3 },
   { hash := "h2", shortHash := "s2", author := "Alice", authorEmail := "a@x",
     date := "2024-01-02", message := "m2", linesChanged := 1 },
   { hash := "h3", shortHash := "s3", author := "Bob", authorEmail := "b@x",
     date := "2024-01-03", message := "m3", linesChanged := 2 }]

theorem calculateOwnership_spec_witness :
    wCommits ≠ [] ∧
    ((∀ o ∈ calculateOwnership wCommits,
        o.percentage = round ((o.commits : ℚ) / (wCommits.length : ℚ) * 100) ∧
        0 ≤ o.percentage) ∧
      |((calculateOwnership wCommits).map (fun o => (o.percentage : ℚ))).sum - 100| ≤
        ((calculateOwnership wCommits).length : ℚ) / 2 ∧
      List.Pairwise (fun a b : CodeOwner => b.commits ≤ a.commits)
        (calculateOwnership wCommits)) :=
  ⟨by simp [wCommits], calculateOwnership_spec wCommits (by simp [wCommits])⟩
end WITC
